import Mathlib

/-!
Verification development for the chat-app server (Client.cpp).

The server keeps two pieces of shared state guarded by one mutex
(clients_mutex):

* clients      : std::vector<SOCKET>            — the broadcast-target list
* clientNames  : std::map<SOCKET, std::string>  — socket → display name

We embed the server shallowly: sockets are natural numbers, byte strings are
Lean strings (one Char per byte, message.size() = String.length), the name map
is an association list with std::map semantics (unique keys), and the
observable behaviour of broadcastMessage is a trace of events (mutex acquire,
send, error log, mutex release).  Network outcomes are an oracle
sendOk : SocketId → Bool saying whether send() succeeds on a given socket.
-/

namespace ChatApp

abbrev SocketId := Nat

/-- Observable events of one call to broadcastMessage: taking and dropping
clients_mutex, a send of nbytes bytes to a target socket, and the cerr log
emitted when a send returns SOCKET_ERROR. -/
inductive Ev where
  | acquire : Ev
  | send (target : SocketId) (nbytes : Nat) : Ev
  | logSendError (target : SocketId) : Ev
  | release : Ev
deriving DecidableEq, Repr

/-- Embeds the for-loop body of broadcastMessage (Client.cpp lines 386-393):
for each client other than the sender, send message.size() + 1 bytes; if the
send fails, log the error and continue with the next client. -/
def sendLoop (message : String) (sender : SocketId) (sendOk : SocketId → Bool) :
    List SocketId → List Ev
  | [] => []
  | c :: rest =>
    if c = sender then
      sendLoop message sender sendOk rest
    else
      Ev.send c (message.length + 1) ::
        ((if sendOk c then [] else [Ev.logSendError c]) ++
          sendLoop message sender sendOk rest)

/-- Embeds broadcastMessage (Client.cpp lines 383-394): the lock_guard on
clients_mutex spans the whole function body, so the trace is acquire, then
the send loop, then release. -/
def broadcastMessage (message : String) (sender : SocketId)
    (sendOk : SocketId → Bool) (clients : List SocketId) : List Ev :=
  Ev.acquire :: (sendLoop message sender sendOk clients ++ [Ev.release])

/-- Scans a trace with a lock-held flag and reports whether some send event
occurs while the mutex is held. -/
def sendWhileLocked : Bool → List Ev → Bool
  | _, [] => false
  | _, Ev.acquire :: rest => sendWhileLocked true rest
  | _, Ev.release :: rest => sendWhileLocked false rest
  | held, Ev.send _ _ :: rest => held || sendWhileLocked held rest
  | held, Ev.logSendError _ :: rest => sendWhileLocked held rest

/-- Scans a trace with a lock-held flag and reports whether every send event
occurs while the mutex is held. -/
def allSendsLocked : Bool → List Ev → Bool
  | _, [] => true
  | _, Ev.acquire :: rest => allSendsLocked true rest
  | _, Ev.release :: rest => allSendsLocked false rest
  | held, Ev.send _ _ :: rest => held && allSendsLocked held rest
  | held, Ev.logSendError _ :: rest => allSendsLocked held rest

/-- Extracts the targets of the send events of a trace, in order. -/
def sendTargets : List Ev → List SocketId
  | [] => []
  | Ev.send c _ :: rest => c :: sendTargets rest
  | Ev.acquire :: rest => sendTargets rest
  | Ev.release :: rest => sendTargets rest
  | Ev.logSendError _ :: rest => sendTargets rest

/-- Association-list lookup with std::map semantics: clientNames.find(sock). -/
def lookupName : List (SocketId × String) → SocketId → Option String
  | [], _ => none
  | (k, v) :: rest, sock => if k = sock then some v else lookupName rest sock

/-- Association-list update with std::map semantics:
clientNames[sock] = name (replace if present, append otherwise). -/
def insertName : List (SocketId × String) → SocketId → String → List (SocketId × String)
  | [], sock, name => [(sock, name)]
  | (k, v) :: rest, sock, name =>
    if k = sock then (sock, name) :: rest else (k, v) :: insertName rest sock name

/-- Association-list erase with std::map semantics: clientNames.erase(it)
where it = clientNames.find(sock) — drops the first entry with that key. -/
def eraseName : List (SocketId × String) → SocketId → List (SocketId × String)
  | [], _ => []
  | (k, v) :: rest, sock =>
    if k = sock then rest else (k, v) :: eraseName rest sock

/-- The server's shared mutable state: the clients vector (the list broadcast
iterates over) and the socket-to-name map. -/
structure ServerState where
  clients : List SocketId
  clientNames : List (SocketId × String)
deriving DecidableEq, Repr

/-- Embeds the mutex-guarded block of the disconnect branch (Client.cpp lines
430-444): look the socket up in clientNames; if found, return its name and
erase the socket from both the clients vector (std::remove erases every
occurrence) and the map; if not found, log "possibly already removed" and
change nothing. -/
def removeClient (st : ServerState) (sock : SocketId) : ServerState × Option String :=
  match lookupName st.clientNames sock with
  | some n =>
    (⟨st.clients.filter (fun c => c ≠ sock), eraseName st.clientNames sock⟩, some n)
  | none => (st, none)

/-- Embeds the whole disconnect branch (Client.cpp lines 428-451): run the
guarded removal, then build the leave notice from the name found in the map —
or, when the map entry was already gone, from the handler-local clientName —
and broadcast it excluding the disconnecting socket.  Returns the new state,
the name used, and the (message, excludeId) broadcast. -/
def disconnectStep (st : ServerState) (sock : SocketId) (localName : String) :
    ServerState × String × (String × SocketId) :=
  let r := removeClient st sock
  let n := r.2.getD localName
  (r.1, n, (n ++ " has left the chat.", sock))

/-- Outcome of one recv() call on a socket: data (bytesReceived > 0, carrying
the string the code builds from the buffer) or closed (bytesReceived == 0 or
SOCKET_ERROR). -/
inductive RecvResult where
  | data (bytes : String) : RecvResult
  | closed : RecvResult
deriving DecidableEq, Repr

/-- Embeds the communication loop of handleClient (Client.cpp lines 424-460),
driven by the list of successive recv outcomes.  A closed outcome runs the
disconnect branch, closes the socket and breaks; a data outcome broadcasts
localName ++ ": " ++ bytes excluding self and loops.  Returns the final
state, the (message, excludeId) broadcasts in order, and whether closesocket
was reached (false when the input list runs out with the handler still
blocked in recv). -/
def loopRun (st : ServerState) (sock : SocketId) (localName : String) :
    List RecvResult → ServerState × List (String × SocketId) × Bool
  | [] => (st, [], false)
  | RecvResult.closed :: _ =>
    let d := disconnectStep st sock localName
    (d.1, [d.2.2], true)
  | RecvResult.data bytes :: rest =>
    let r := loopRun st sock localName rest
    (r.1, (localName ++ ": " ++ bytes, sock) :: r.2.1, r.2.2)

/-- Embeds handleClient (Client.cpp lines 396-469), driven by the outcome of
the first recv (the name handshake) and the outcomes of the loop recvs.  On a
failed handshake the socket is closed and the function returns: no map entry,
no broadcast.  On success the name is stored in clientNames under the mutex,
the join notice is broadcast excluding self, and the communication loop runs
with the captured name. -/
def runHandler (st : ServerState) (sock : SocketId) (first : RecvResult)
    (rest : List RecvResult) : ServerState × List (String × SocketId) × Bool :=
  match first with
  | RecvResult.closed => (st, [], true)
  | RecvResult.data name =>
    let st1 : ServerState := ⟨st.clients, insertName st.clientNames sock name⟩
    let r := loopRun st1 sock name rest
    (r.1, (name ++ " has joined the chat.", sock) :: r.2.1, r.2.2)

/-- Embeds the accept loop body of main (Client.cpp lines 521-525): the
freshly accepted socket is pushed onto the clients vector under the mutex,
before the handler thread (and hence the handshake) even starts. -/
def acceptStep (st : ServerState) (sock : SocketId) : ServerState :=
  ⟨st.clients ++ [sock], st.clientNames⟩

/-- True when the recv script reaches a closed outcome (the only way the
communication loop takes its disconnect branch). -/
def hasClosed : List RecvResult → Bool
  | [] => false
  | RecvResult.closed :: _ => true
  | RecvResult.data _ :: rest => hasClosed rest

/-- Modelled from the spec: the message-loop control flow described as
"recv → Registry lookup for name → Broadcaster.send" — the sender name that
prefixes the broadcast is obtained by looking the connection's id up in the
Registry at the time of the message (none when the id has no entry).  This
definition follows the spec's words and exists to be compared with the
source-derived loopRun, whose chat line uses the handler-local name instead. -/
def chatMessageViaRegistry (clientNames : List (SocketId × String))
    (sock : SocketId) (bytes : String) : Option (String × SocketId) :=
  match lookupName clientNames sock with
  | some n => some (n ++ ": " ++ bytes, sock)
  | none => none

/-- The c_str() terminator byte. -/
def NUL : Char := Char.ofNat 0

/-- Embeds the byte sequence one send(client, message.c_str(),
message.size() + 1, 0) in broadcastMessage writes to a target: the message
text followed by the terminating NUL. -/
def serverWrite (message : String) : String := message.push NUL

/-- Embeds the client program's name send (Client.cpp lines 50-54):
send(clientSocket, clientName.c_str(), clientName.size() + 1, 0). -/
def clientNameWire (clientName : String) : String := clientName.push NUL

/-- Embeds the client program's per-line send (Client.cpp lines 62-67):
send(clientSocket, userInput.c_str(), userInput.size() + 1, 0). -/
def clientLineWire (userInput : String) : String := userInput.push NUL

/-- Embeds clientName = std::string(buf, 0, bytesReceived) (Client.cpp line
405) at the byte level: the three-argument form first converts buf through a
strlen-based basic_string (or, since C++17, string_view) conversion, which
stops at the first NUL — the buffer is zeroed, so the scan ends there — and
then takes at most bytesReceived characters, a no-op after that truncation.
The stored display name is therefore the received bytes truncated at the
first NUL, excluding the terminator the client appended. -/
def storedName (received : String) : String :=
  String.mk (received.data.takeWhile (fun c => c ≠ NUL))

/-! Helper lemmas about the send loop, the name map and the handler loop. -/

theorem allSendsLocked_sendLoop (message : String) (sender : SocketId)
    (sendOk : SocketId → Bool) (tail : List Ev) :
    ∀ cs : List SocketId,
      allSendsLocked true (sendLoop message sender sendOk cs ++ tail) =
        allSendsLocked true tail := by
  intro cs
  induction cs with
  | nil => rfl
  | cons c rest ih =>
    by_cases hc : c = sender
    · simp [sendLoop, hc, ih]
    · by_cases hok : sendOk c
      · simp [sendLoop, hc, hok, allSendsLocked, ih]
      · simp [sendLoop, hc, hok, allSendsLocked, ih]

theorem sendTargets_append :
    ∀ l1 l2 : List Ev, sendTargets (l1 ++ l2) = sendTargets l1 ++ sendTargets l2 := by
  intro l1 l2
  induction l1 with
  | nil => rfl
  | cons e rest ih => cases e <;> simp [sendTargets, ih]

theorem sendTargets_sendLoop (message : String) (sender : SocketId)
    (sendOk : SocketId → Bool) :
    ∀ cs : List SocketId,
      sendTargets (sendLoop message sender sendOk cs)
        = cs.filter (fun c => c ≠ sender) := by
  intro cs
  induction cs with
  | nil => rfl
  | cons c rest ih =>
    by_cases hc : c = sender
    · simp [sendLoop, hc, sendTargets, ih]
    · by_cases hok : sendOk c
      · simp [sendLoop, hc, hok, sendTargets, ih]
      · simp [sendLoop, hc, hok, sendTargets, ih]

theorem send_not_self_sendLoop (message : String) (sender : SocketId)
    (sendOk : SocketId → Bool) (nb : Nat) :
    ∀ cs : List SocketId, Ev.send sender nb ∉ sendLoop message sender sendOk cs := by
  intro cs
  induction cs with
  | nil => simp [sendLoop]
  | cons c rest ih =>
    by_cases hc : c = sender
    · simpa [sendLoop, hc] using ih
    · by_cases hok : sendOk c
      · simp [sendLoop, hc, hok, Ne.symm hc, ih]
      · simp [sendLoop, hc, hok, Ne.symm hc, ih]

theorem send_mem_sendLoop (message : String) (sender : SocketId)
    (sendOk : SocketId → Bool) (dead : SocketId) :
    ∀ cs : List SocketId, dead ∈ cs → dead ≠ sender →
      Ev.send dead (message.length + 1) ∈ sendLoop message sender sendOk cs := by
  intro cs
  induction cs with
  | nil => intro h; simp at h
  | cons c rest ih =>
    intro hmem hne
    rcases List.mem_cons.mp hmem with h | h
    · have hrw : sendLoop message sender sendOk (c :: rest)
          = Ev.send c (message.length + 1) ::
              ((if sendOk c then [] else [Ev.logSendError c]) ++
                sendLoop message sender sendOk rest) := by
        simp [sendLoop, h ▸ hne]
      rw [hrw, ← h]
      exact List.mem_cons_self _ _
    · by_cases hc : c = sender
      · have hrw : sendLoop message sender sendOk (c :: rest)
            = sendLoop message sender sendOk rest := by simp [sendLoop, hc]
        rw [hrw]
        exact ih h hne
      · have hrw : sendLoop message sender sendOk (c :: rest)
            = Ev.send c (message.length + 1) ::
                ((if sendOk c then [] else [Ev.logSendError c]) ++
                  sendLoop message sender sendOk rest) := by
          simp [sendLoop, hc]
        rw [hrw]
        exact List.mem_cons_of_mem _ (List.mem_append_right _ (ih h hne))

theorem logSendError_mem_sendLoop (message : String) (sender : SocketId)
    (sendOk : SocketId → Bool) (dead : SocketId) :
    ∀ cs : List SocketId, dead ∈ cs → dead ≠ sender → sendOk dead = false →
      Ev.logSendError dead ∈ sendLoop message sender sendOk cs := by
  intro cs
  induction cs with
  | nil => intro h; simp at h
  | cons c rest ih =>
    intro hmem hne hfail
    rcases List.mem_cons.mp hmem with h | h
    · have hrw : sendLoop message sender sendOk (c :: rest)
          = Ev.send c (message.length + 1) ::
              ([Ev.logSendError c] ++ sendLoop message sender sendOk rest) := by
        simp [sendLoop, h ▸ hne, h ▸ hfail]
      rw [hrw, ← h]
      exact List.mem_cons_of_mem _ (List.mem_append_left _ (List.mem_singleton.mpr rfl))
    · by_cases hc : c = sender
      · have hrw : sendLoop message sender sendOk (c :: rest)
            = sendLoop message sender sendOk rest := by simp [sendLoop, hc]
        rw [hrw]
        exact ih h hne hfail
      · have hrw : sendLoop message sender sendOk (c :: rest)
            = Ev.send c (message.length + 1) ::
                ((if sendOk c then [] else [Ev.logSendError c]) ++
                  sendLoop message sender sendOk rest) := by
          simp [sendLoop, hc]
        rw [hrw]
        exact List.mem_cons_of_mem _ (List.mem_append_right _ (ih h hne hfail))

theorem send_nbytes_sendLoop (message : String) (sender : SocketId)
    (sendOk : SocketId → Bool) (target : SocketId) (nb : Nat) :
    ∀ cs : List SocketId,
      Ev.send target nb ∈ sendLoop message sender sendOk cs →
        nb = message.length + 1 := by
  intro cs
  induction cs with
  | nil => intro h; simp [sendLoop] at h
  | cons c rest ih =>
    intro h
    by_cases hc : c = sender
    · rw [show sendLoop message sender sendOk (c :: rest)
          = sendLoop message sender sendOk rest from by simp [sendLoop, hc]] at h
      exact ih h
    · rw [show sendLoop message sender sendOk (c :: rest)
          = Ev.send c (message.length + 1) ::
              ((if sendOk c then [] else [Ev.logSendError c]) ++
                sendLoop message sender sendOk rest) from by simp [sendLoop, hc]] at h
      rcases List.mem_cons.mp h with h | h
      · injection h with h1 h2
      · rcases List.mem_append.mp h with h | h
        · by_cases hok : sendOk c
          · simp [hok] at h
          · simp [hok] at h
        · exact ih h

theorem lookupName_insertName_self (sock : SocketId) (name : String) :
    ∀ m : List (SocketId × String),
      lookupName (insertName m sock name) sock = some name := by
  intro m
  induction m with
  | nil => simp [insertName, lookupName]
  | cons p rest ih =>
    rcases p with ⟨k, v⟩
    by_cases hk : k = sock
    · simp [insertName, hk, lookupName]
    · simp [insertName, hk, lookupName, ih]

theorem lookupName_eq_none (sock : SocketId) :
    ∀ m : List (SocketId × String),
      sock ∉ m.map Prod.fst → lookupName m sock = none := by
  intro m
  induction m with
  | nil => intro _; rfl
  | cons p rest ih =>
    rcases p with ⟨k, v⟩
    intro h
    simp only [List.map_cons, List.mem_cons, not_or] at h
    simp [lookupName, Ne.symm h.1, ih h.2]

theorem lookupName_eraseName_self (sock : SocketId) :
    ∀ m : List (SocketId × String), (m.map Prod.fst).Nodup →
      lookupName (eraseName m sock) sock = none := by
  intro m
  induction m with
  | nil => intro _; rfl
  | cons p rest ih =>
    rcases p with ⟨k, v⟩
    intro h
    rw [List.map_cons, List.nodup_cons] at h
    by_cases hk : k = sock
    · subst hk
      simpa [eraseName] using lookupName_eq_none k rest h.1
    · simp [eraseName, hk, lookupName, ih h.2]

theorem takeWhile_eq_self (p : Char → Bool) :
    ∀ l : List Char, (∀ c ∈ l, p c = true) → l.takeWhile p = l := by
  intro l
  induction l with
  | nil => intro _; rfl
  | cons c rest ih =>
    intro h
    have hc := h c (List.mem_cons_self _ _)
    simp [List.takeWhile_cons, hc,
      ih fun d hd => h d (List.mem_cons_of_mem _ hd)]

theorem takeWhile_append_stop (p : Char → Bool) (x : Char) :
    ∀ l : List Char, (∀ c ∈ l, p c = true) → p x = false →
      (l ++ [x]).takeWhile p = l := by
  intro l
  induction l with
  | nil => intro _ hx; simp [List.takeWhile_cons, hx]
  | cons c rest ih =>
    intro h hx
    have hc := h c (List.mem_cons_self _ _)
    simp [List.takeWhile_cons, hc,
      ih (fun d hd => h d (List.mem_cons_of_mem _ hd)) hx]

theorem loopRun_state (st : ServerState) (sock : SocketId) (localName : String) :
    ∀ script : List RecvResult,
      (loopRun st sock localName script).1
        = (if hasClosed script then (disconnectStep st sock localName).1 else st) := by
  intro script
  induction script with
  | nil => rfl
  | cons r rest ih =>
    cases r with
    | closed => simp [loopRun, hasClosed]
    | data bytes => simpa [loopRun, hasClosed] using ih

theorem loopRun_broadcast_mem (st : ServerState) (sock : SocketId) (localName : String) :
    ∀ script : List RecvResult, ∀ me ∈ (loopRun st sock localName script).2.1,
      me.2 = sock ∧
        ((∃ p, me.1 = localName ++ ": " ++ p) ∨
         (∃ n, me.1 = n ++ " has left the chat.")) := by
  intro script
  induction script with
  | nil => intro me h; simp [loopRun] at h
  | cons r rest ih =>
    intro me h
    cases r with
    | closed =>
      have hh : me = (disconnectStep st sock localName).2.2 := by
        simpa [loopRun] using h
      subst hh
      exact ⟨rfl, Or.inr ⟨(removeClient st sock).2.getD localName, rfl⟩⟩
    | data bytes =>
      simp only [loopRun] at h
      rcases List.mem_cons.mp h with h | h
      · subst h
        exact ⟨rfl, Or.inl ⟨bytes, rfl⟩⟩
      · exact ih me h

/-! Claim theorems. -/

/-- C1 counterexample: with clients [1, 2] and sender 1, the trace of
broadcastMessage performs its transport write to socket 2 strictly between
acquiring and releasing clients_mutex, so a blocking network send does execute
while the Registry lock is held — the claimed snapshot-then-send-unlocked
discipline does not hold of the code. -/
theorem sendWhileLocked_in_broadcast :
    sendWhileLocked false
      (broadcastMessage "hi" 1 (fun _ => true) [1, 2]) = true := by
  decide

/-- C1 (amended): broadcastMessage acquires the Registry mutex, performs every
transport write while holding it, and releases it only afterwards — no send is
ever executed outside the lock; the lock_guard spans the whole send loop. -/
theorem broadcast_sends_all_locked (message : String) (sender : SocketId)
    (sendOk : SocketId → Bool) (clients : List SocketId) :
    allSendsLocked false (broadcastMessage message sender sendOk clients) = true := by
  show allSendsLocked true
      (sendLoop message sender sendOk clients ++ [Ev.release]) = true
  rw [allSendsLocked_sendLoop]
  rfl

/-- C2 (code bug): after main accepts socket 1 (pushing it onto the clients
vector, the broadcast-target collection) and the handshake read fails, the
handler exits leaving the state unchanged: socket 1 stays in the
broadcast-target collection with no name ever recorded, and a later broadcast
by socket 2 still attempts a send to socket 1 and logs its failure — refuting
the claimed invariant that an id is in the broadcast-target collection only
when its handshake has completed. -/
theorem handshake_failure_leaves_broadcast_target :
    runHandler (acceptStep ⟨[], []⟩ 1) 1 RecvResult.closed []
        = (⟨[1], []⟩, [], true)
    ∧ lookupName (⟨[1], []⟩ : ServerState).clientNames 1 = none
    ∧ (1 : SocketId) ∈ (⟨[1], []⟩ : ServerState).clients
    ∧ Ev.send 1 ("Bob has joined the chat.".length + 1)
        ∈ broadcastMessage "Bob has joined the chat." 2 (fun _ => false)
            (acceptStep ⟨[1], []⟩ 2).clients
    ∧ Ev.logSendError 1
        ∈ broadcastMessage "Bob has joined the chat." 2 (fun _ => false)
            (acceptStep ⟨[1], []⟩ 2).clients := by
  decide

/-- C3: every (message, excludeId) pair a handler hands to broadcastMessage
has excludeId equal to the handler's own socket and its text is exactly one of
name ++ " has joined the chat.", name ++ ": " ++ payload, or
n ++ " has left the chat."; and broadcastMessage never emits a send event to
its excluded socket. -/
theorem broadcast_lines_form (st : ServerState) (sock : SocketId) (name : String)
    (rest : List RecvResult) :
    (∀ me ∈ (runHandler st sock (RecvResult.data name) rest).2.1,
        me.2 = sock ∧
          (me.1 = name ++ " has joined the chat." ∨
           (∃ p, me.1 = name ++ ": " ++ p) ∨
           (∃ n, me.1 = n ++ " has left the chat.")))
    ∧ (∀ (message : String) (sendOk : SocketId → Bool)
          (clients : List SocketId) (nb : Nat),
        Ev.send sock nb ∉ broadcastMessage message sock sendOk clients) := by
  constructor
  · intro me h
    simp only [runHandler] at h
    rcases List.mem_cons.mp h with h | h
    · subst h
      exact ⟨rfl, Or.inl rfl⟩
    · have h2 := loopRun_broadcast_mem _ sock name _ me h
      exact ⟨h2.1, Or.inr h2.2⟩
  · intro message sendOk clients nb hmem
    rcases List.mem_cons.mp hmem with h | h
    · exact Ev.noConfusion h
    · rcases List.mem_append.mp h with h | h
      · exact send_not_self_sendLoop message sock sendOk nb clients h
      · simp at h

/-- Witness for broadcast_lines_form at a concrete run: the handler for socket
1 named Alice that receives one chat line produces the line "Alice: hi"
excluding itself, and the broadcast for sender 1 never sends to socket 1. -/
theorem broadcast_lines_form_witness :
    ((("Alice: hi", 1) : String × SocketId).2 = 1 ∧
      (("Alice: hi" : String) = "Alice" ++ " has joined the chat." ∨
       (∃ p, ("Alice: hi" : String) = "Alice" ++ ": " ++ p) ∨
       (∃ n, ("Alice: hi" : String) = n ++ " has left the chat.")))
    ∧ Ev.send 1 3 ∉ broadcastMessage "hi" 1 (fun _ => true) [1, 2] := by
  refine ⟨?_, ?_⟩
  · exact (broadcast_lines_form ⟨[1], []⟩ 1 "Alice" [RecvResult.data "hi"]).1
      ("Alice: hi", 1) (by decide)
  · exact (broadcast_lines_form ⟨[1], []⟩ 1 "Alice" [RecvResult.data "hi"]).2
      "hi" (fun _ => true) [1, 2] 3

/-- C4: the targets broadcastMessage attempts are exactly the registered
clients other than the sender, independent of which sends fail (the
right-hand side does not mention the send oracle, so a failure never aborts
delivery to the remaining targets, and the function returns its trace rather
than raising); every failed send to a non-excluded target is logged. -/
theorem delivery_attempts_independent (message : String) (sender : SocketId)
    (sendOk : SocketId → Bool) (clients : List SocketId) :
    sendTargets (broadcastMessage message sender sendOk clients)
        = clients.filter (fun c => c ≠ sender)
    ∧ (∀ c ∈ clients, c ≠ sender → sendOk c = false →
        Ev.logSendError c ∈ broadcastMessage message sender sendOk clients) := by
  constructor
  · calc sendTargets (broadcastMessage message sender sendOk clients)
        = sendTargets (sendLoop message sender sendOk clients ++ [Ev.release]) := rfl
      _ = sendTargets (sendLoop message sender sendOk clients)
            ++ sendTargets [Ev.release] := sendTargets_append _ _
      _ = sendTargets (sendLoop message sender sendOk clients) := by
            simp [sendTargets]
      _ = clients.filter (fun c => c ≠ sender) :=
            sendTargets_sendLoop message sender sendOk clients
  · intro c hmem hne hfail
    exact List.mem_cons_of_mem _
      (List.mem_append_left _
        (logSendError_mem_sendLoop message sender sendOk c clients hmem hne hfail))

/-- Witness for delivery_attempts_independent: with sender 1 and clients
[1, 2] where every send fails, the attempted targets are exactly [2] and the
failure on socket 2 is logged. -/
theorem delivery_attempts_independent_witness :
    sendTargets (broadcastMessage "m" 1 (fun _ => false) [1, 2]) = [2]
    ∧ Ev.logSendError 2 ∈ broadcastMessage "m" 1 (fun _ => false) [1, 2] := by
  have h := delivery_attempts_independent "m" 1 (fun _ => false) [1, 2]
  exact ⟨h.1.trans (by decide), h.2 2 (by decide) (by decide) (by decide)⟩

/-- C5: when the handshake read on a freshly accepted socket returns zero
bytes or an error, the handler goes straight to Closed (closesocket, return):
the server state is exactly what it was after the accept, nothing is ever
broadcast about the connection, and the name map — untouched by the accept —
never receives an entry for it. -/
theorem handshake_failure_silent (st : ServerState) (sock : SocketId)
    (rest : List RecvResult) :
    runHandler (acceptStep st sock) sock RecvResult.closed rest
        = (acceptStep st sock, [], true)
    ∧ (acceptStep st sock).clientNames = st.clientNames :=
  ⟨rfl, rfl⟩

/-- C6: the disconnect-branch removal is idempotent — removing an id that the
name map does not hold is a no-op that leaves the whole state unchanged and
signals none ("possibly already removed"), and under the std::map key
uniqueness invariant a second removal of the same id is such a no-op, so
removing twice yields the same state as removing once. -/
theorem remove_idempotent_noop :
    (∀ (st : ServerState) (sock : SocketId),
        lookupName st.clientNames sock = none → removeClient st sock = (st, none))
    ∧ (∀ (st : ServerState) (sock : SocketId),
        (st.clientNames.map Prod.fst).Nodup →
          removeClient (removeClient st sock).1 sock
            = ((removeClient st sock).1, none)) := by
  constructor
  · intro st sock h
    simp [removeClient, h]
  · intro st sock h
    rcases hl : lookupName st.clientNames sock with _ | n
    · simp [removeClient, hl]
    · have h1 : (removeClient st sock).1
          = ⟨st.clients.filter (fun c => c ≠ sock),
              eraseName st.clientNames sock⟩ := by
        simp [removeClient, hl]
      rw [h1]
      have h2 : lookupName (eraseName st.clientNames sock) sock = none :=
        lookupName_eraseName_self sock st.clientNames h
      simp [removeClient, h2]

/-- Witness for remove_idempotent_noop: removing absent id 1 from a state
that only knows socket 2 changes nothing, and removing id 1 twice from a
state that knows it equals removing it once. -/
theorem remove_idempotent_noop_witness :
    removeClient ⟨[1, 2], [(2, "Bob")]⟩ 1 = (⟨[1, 2], [(2, "Bob")]⟩, none)
    ∧ removeClient (removeClient ⟨[1, 2], [(1, "Alice"), (2, "Bob")]⟩ 1).1 1
        = ((removeClient ⟨[1, 2], [(1, "Alice"), (2, "Bob")]⟩ 1).1, none) :=
  ⟨remove_idempotent_noop.1 ⟨[1, 2], [(2, "Bob")]⟩ 1 (by decide),
   remove_idempotent_noop.2 ⟨[1, 2], [(1, "Alice"), (2, "Bob")]⟩ 1 (by decide)⟩

/-- C7: whenever the message loop observes a disconnect, exactly one leave
notice is broadcast, excluding the disconnecting socket, built from the name
the removal step yields; when the map still holds the id the notice carries
the stored name and the entry is erased, and when the entry is already gone
the notice still carries the handler-local name captured at handshake and the
state is left untouched. -/
theorem leave_notice_on_disconnect (st : ServerState) (sock : SocketId)
    (localName : String) :
    (∀ k : List RecvResult,
        (loopRun st sock localName (RecvResult.closed :: k)).2.1
          = [((disconnectStep st sock localName).2.1 ++ " has left the chat.", sock)])
    ∧ (∀ n, lookupName st.clientNames sock = some n →
        disconnectStep st sock localName
          = (⟨st.clients.filter (fun c => c ≠ sock), eraseName st.clientNames sock⟩,
             n, (n ++ " has left the chat.", sock)))
    ∧ (lookupName st.clientNames sock = none →
        disconnectStep st sock localName
          = (st, localName, (localName ++ " has left the chat.", sock))) := by
  refine ⟨?_, ?_, ?_⟩
  · intro k
    rfl
  · intro n hn
    simp [disconnectStep, removeClient, hn]
  · intro hn
    simp [disconnectStep, removeClient, hn]

/-- Witness for leave_notice_on_disconnect: with the entry present the leave
notice uses the stored name and removes the entry; with the entry already
gone the notice still carries the locally captured name Alice. -/
theorem leave_notice_on_disconnect_witness :
    disconnectStep ⟨[1, 2], [(1, "Alice")]⟩ 1 "Alice"
        = (⟨[2], []⟩, "Alice", ("Alice has left the chat.", 1))
    ∧ disconnectStep ⟨[2], []⟩ 1 "Alice"
        = (⟨[2], []⟩, "Alice", ("Alice has left the chat.", 1)) := by
  constructor
  · have h := (leave_notice_on_disconnect ⟨[1, 2], [(1, "Alice")]⟩ 1 "Alice").2.1
      "Alice" (by decide)
    exact h.trans (by decide)
  · exact (leave_notice_on_disconnect ⟨[2], []⟩ 1 "Alice").2.2 (by decide)

/-- C8 counterexample: in a state whose name map binds socket 1 to Mallory
while the handler-local name is Alice, the code broadcasts "Alice: hi" — the
locally captured name — whereas the claimed recv → Registry lookup →
broadcast control flow would produce "Mallory: hi", so the sender name is not
obtained by a Registry lookup at the time of the message. -/
theorem chat_name_not_from_registry :
    (loopRun ⟨[1, 2], [(1, "Mallory")]⟩ 1 "Alice" [RecvResult.data "hi"]).2.1
        = [("Alice: hi", 1)]
    ∧ chatMessageViaRegistry [(1, "Mallory")] 1 "hi" = some ("Mallory: hi", 1)
    ∧ (("Alice: hi", (1 : SocketId)) ≠ ("Mallory: hi", (1 : SocketId))) := by
  refine ⟨by decide, by decide, by decide⟩

/-- C8 (amended): the chat line broadcast for each received message is built
from the handler-local name captured during the handshake — the head of the
broadcast list is localName ++ ": " ++ bytes and is the same whatever the
name map contains, so the Registry is not consulted on the message path. -/
theorem chat_line_uses_local_name (cs : List SocketId)
    (ns nsOther : List (SocketId × String)) (sock : SocketId)
    (localName bytes : String) (rest : List RecvResult) :
    (loopRun ⟨cs, ns⟩ sock localName (RecvResult.data bytes :: rest)).2.1.head?
        = some (localName ++ ": " ++ bytes, sock)
    ∧ (loopRun ⟨cs, ns⟩ sock localName (RecvResult.data bytes :: rest)).2.1.head?
        = (loopRun ⟨cs, nsOther⟩ sock localName
            (RecvResult.data bytes :: rest)).2.1.head? :=
  ⟨rfl, rfl⟩

/-- C9: a handler whose handshake read fails leaves the server state — in
particular the clients vector — exactly as it was; a handler that completes
the handshake leaves the clients vector unchanged until (and unless) its loop
observes a disconnect, the only step that filters the vector; and every
broadcast by another sender attempts a send to any socket still in the
vector, such as one leaked by a failed handshake. -/
theorem stale_socket_receives_sends :
    (∀ (st : ServerState) (sock : SocketId) (rest : List RecvResult),
        (runHandler st sock RecvResult.closed rest).1 = st)
    ∧ (∀ (st : ServerState) (sock : SocketId) (name : String)
          (rest : List RecvResult),
        hasClosed rest = false →
          (runHandler st sock (RecvResult.data name) rest).1.clients = st.clients)
    ∧ (∀ (st : ServerState) (sock : SocketId) (name : String)
          (rest : List RecvResult),
        hasClosed rest = true →
          (runHandler st sock (RecvResult.data name) rest).1.clients
            = st.clients.filter (fun c => c ≠ sock))
    ∧ (∀ (message : String) (sender : SocketId) (sendOk : SocketId → Bool)
          (clients : List SocketId) (dead : SocketId),
        dead ∈ clients → dead ≠ sender →
          Ev.send dead (message.length + 1)
            ∈ broadcastMessage message sender sendOk clients) := by
  refine ⟨?_, ?_, ?_, ?_⟩
  · intro st sock rest
    rfl
  · intro st sock name rest h
    show (loopRun ⟨st.clients, insertName st.clientNames sock name⟩
        sock name rest).1.clients = st.clients
    rw [loopRun_state]
    simp [h]
  · intro st sock name rest h
    show (loopRun ⟨st.clients, insertName st.clientNames sock name⟩
        sock name rest).1.clients = st.clients.filter (fun c => c ≠ sock)
    rw [loopRun_state]
    have hl := lookupName_insertName_self sock name st.clientNames
    simp [h, disconnectStep, removeClient, hl]
  · intro message sender sendOk clients dead hmem hne
    exact List.mem_cons_of_mem _
      (List.mem_append_left _
        (send_mem_sendLoop message sender sendOk dead clients hmem hne))

/-- Witness for stale_socket_receives_sends at concrete runs: a failed
handshake on socket 1 leaves the state alone; a named handler with no
disconnect leaves the vector alone; one that disconnects is filtered out;
and a broadcast by socket 2 attempts a send to socket 1. -/
theorem stale_socket_receives_sends_witness :
    (runHandler ⟨[1], []⟩ 1 RecvResult.closed []).1 = ⟨[1], []⟩
    ∧ (runHandler ⟨[1, 2], []⟩ 2 (RecvResult.data "Bob") []).1.clients = [1, 2]
    ∧ (runHandler ⟨[1, 2], []⟩ 2 (RecvResult.data "Bob")
        [RecvResult.closed]).1.clients = [1]
    ∧ Ev.send 1 ("hi".length + 1)
        ∈ broadcastMessage "hi" 2 (fun _ => true) [1, 2] := by
  refine ⟨stale_socket_receives_sends.1 ⟨[1], []⟩ 1 [],
    stale_socket_receives_sends.2.1 ⟨[1, 2], []⟩ 2 "Bob" [] (by decide), ?_, ?_⟩
  · have h := stale_socket_receives_sends.2.2.1 ⟨[1, 2], []⟩ 2 "Bob"
      [RecvResult.closed] (by decide)
    exact h.trans (by decide)
  · exact stale_socket_receives_sends.2.2.2 "hi" 2 (fun _ => true) [1, 2] 1
      (by decide) (by decide)

/-- C10 counterexample: the client sends "Alice" followed by the c_str NUL
terminator, but std::string(buf, 0, bytesReceived) converts the buffer
through a strlen-based conversion that stops at the first NUL, so the stored
display name is "Alice" — not the raw received bytes including the
terminator, as the claim states. -/
theorem stored_name_drops_terminator :
    clientNameWire "Alice" = ("Alice" : String).push NUL
    ∧ storedName (clientNameWire "Alice") = "Alice"
    ∧ storedName (clientNameWire "Alice") ≠ clientNameWire "Alice" := by
  refine ⟨rfl, by decide, by decide⟩

/-- C10 (amended): every send of broadcastMessage writes message.size() + 1
bytes — the text plus the trailing NUL of serverWrite; the client appends a
NUL to its name and to every line it sends; the server stores as display name
the received bytes truncated at the first NUL, so a NUL-free typed name is
stored exactly, without the terminator, and a NUL-free received block passes
through unchanged — with no other transformation, no validation, and a
name-map insertion that accepts any name with no uniqueness check. -/
theorem wire_bytes_and_truncated_name :
    (∀ message : String, (serverWrite message).length = message.length + 1)
    ∧ (∀ (message : String) (sender target : SocketId) (sendOk : SocketId → Bool)
          (clients : List SocketId) (nb : Nat),
        Ev.send target nb ∈ broadcastMessage message sender sendOk clients →
          nb = (serverWrite message).length)
    ∧ (∀ line : String, clientLineWire line = line.push NUL)
    ∧ (∀ name : String, NUL ∉ name.data →
        storedName (clientNameWire name) = name)
    ∧ (∀ received : String, NUL ∉ received.data →
        storedName received = received)
    ∧ (∀ (m : List (SocketId × String)) (sock : SocketId) (name : String),
        lookupName (insertName m sock name) sock = some name) := by
  have hpush : ∀ message : String, (serverWrite message).length = message.length + 1 := by
    intro message
    rcases message with ⟨data⟩
    show (String.mk (data ++ [NUL])).length = (String.mk data).length + 1
    simp [String.length]
  refine ⟨hpush, ?_, ?_, ?_, ?_, ?_⟩
  · intro message sender target sendOk clients nb h
    rw [hpush message]
    rcases List.mem_cons.mp h with h | h
    · exact Ev.noConfusion h
    · rcases List.mem_append.mp h with h | h
      · exact send_nbytes_sendLoop message sender sendOk target nb clients h
      · simp at h
  · intro line
    rfl
  · intro name hname
    rcases name with ⟨data⟩
    show String.mk ((data ++ [NUL]).takeWhile (fun c => decide (c ≠ NUL)))
        = String.mk data
    rw [takeWhile_append_stop _ NUL data ?all ?stop]
    case all =>
      intro c hc
      have hcne : c ≠ NUL := fun hEq => hname (hEq ▸ hc)
      simpa using hcne
    case stop => simp
  · intro received hrecv
    rcases received with ⟨data⟩
    show String.mk (data.takeWhile (fun c => decide (c ≠ NUL))) = String.mk data
    rw [takeWhile_eq_self _ data ?all]
    case all =>
      intro c hc
      have hcne : c ≠ NUL := fun hEq => hrecv (hEq ▸ hc)
      simpa using hcne
  · intro m sock name
    exact lookupName_insertName_self sock name m

/-- Witness for wire_bytes_and_truncated_name at concrete inputs: the send
event for the two-byte message "hi" carries "hi".length + 1 bytes, the
NUL-free name Alice round-trips through the client write and the server
conversion without its terminator, and the NUL-free block Bob is stored
unchanged. -/
theorem wire_bytes_and_truncated_name_witness :
    ("hi".length + 1) = (serverWrite "hi").length
    ∧ Ev.send 2 ("hi".length + 1) ∈ broadcastMessage "hi" 1 (fun _ => true) [1, 2]
    ∧ storedName (clientNameWire "Alice") = "Alice"
    ∧ storedName "Bob" = "Bob" := by
  have hmem : Ev.send 2 ("hi".length + 1)
      ∈ broadcastMessage "hi" 1 (fun _ => true) [1, 2] := by decide
  exact ⟨wire_bytes_and_truncated_name.2.1 "hi" 1 2 (fun _ => true) [1, 2]
      ("hi".length + 1) hmem, hmem,
    wire_bytes_and_truncated_name.2.2.2.1 "Alice" (by decide),
    wire_bytes_and_truncated_name.2.2.2.2.1 "Bob" (by decide)⟩

end ChatApp
